import Mathlib

/-!
Shallow embedding of `src/packet/signature/de.rs` from the rPGP repository:
the OpenPGP Signature-packet deserializer.  Byte strings are `List Nat`
(each element a byte value), parsers return a `PResult` that distinguishes
nom's three outcomes: success with remaining input, recoverable/fatal error
(`Err::Error` / `Err::Failure`, both "malformed"), and `Err::Incomplete`
("needs more input").  Machine-integer overflow is modelled explicitly with
`% 2^64` where the source does `usize` arithmetic.
-/

/-- Outcome of a nom parser: `done remaining value`, a malformed-input error,
or an incomplete-input signal (more bytes may be needed). -/
inductive PResult (α : Type) : Type where
  | done : List Nat → α → PResult α
  | error : PResult α
  | incomplete : PResult α
deriving DecidableEq

namespace PResult

/-- Sequencing of parse results: on success, continue with the remaining
input and the produced value; errors and incompleteness propagate. -/
def pbind : PResult α → (List Nat → α → PResult β) → PResult β
  | .done i v, g => g i v
  | .error, _ => .error
  | .incomplete, _ => .incomplete

/-- Mapping over the produced value, as nom's `map` combinator. -/
def pmap (f : α → β) : PResult α → PResult β
  | .done i v => .done i (f v)
  | .error => .error
  | .incomplete => .incomplete

end PResult

/-- Inversion principle for `pbind`: a successful bind decomposes into a
successful first step followed by a successful continuation. -/
theorem pbind_eq_done {x : PResult α} {g : List Nat → α → PResult β} {r : List Nat} {b : β} :
    x.pbind g = .done r b ↔ ∃ i v, x = .done i v ∧ g i v = .done r b := by
  cases x <;> simp [PResult.pbind]
  constructor
  · intro h
    exact ⟨_, _, ⟨rfl, rfl⟩, h⟩
  · rintro ⟨i, v, ⟨rfl, rfl⟩, h⟩
    exact h

/-- Inversion principle for `pmap`. -/
theorem pmap_eq_done {x : PResult α} {f : α → β} {r : List Nat} {b : β} :
    x.pmap f = .done r b ↔ ∃ v, x = .done r v ∧ f v = b := by
  cases x <;> simp [PResult.pmap]
  constructor
  · rintro ⟨rfl, rfl⟩
    exact ⟨_, ⟨rfl, rfl⟩, rfl⟩
  · rintro ⟨v, ⟨rfl, rfl⟩, rfl⟩
    exact ⟨rfl, rfl⟩

/-- Streaming one-byte reader (nom `be_u8`): incomplete on empty input. -/
def be_u8P : List Nat → PResult Nat
  | [] => .incomplete
  | b :: r => .done r b

/-- Streaming big-endian two-byte reader (nom `be_u16`). -/
def be_u16P : List Nat → PResult Nat
  | a :: b :: r => .done r (a * 256 + b)
  | _ => .incomplete

/-- Streaming big-endian four-byte reader (nom `be_u32`). -/
def be_u32P : List Nat → PResult Nat
  | a :: b :: c :: d :: r => .done r (((a * 256 + b) * 256 + c) * 256 + d)
  | _ => .incomplete

/-- Streaming `take n` (nom): incomplete if fewer than `n` bytes remain. -/
def takeP (n : Nat) (i : List Nat) : PResult (List Nat) :=
  if n ≤ i.length then .done (i.drop n) (i.take n) else .incomplete

/-- Streaming `tag t` (nom): error on mismatch, incomplete when the input is
a proper agreeing front part of the tag. -/
def tagP (t : List Nat) (i : List Nat) : PResult Unit :=
  if i.take t.length = t then .done (i.drop t.length) ()
  else if t.take i.length = i then .incomplete
  else .error

/-- Nom `rest`: consume and return all remaining input; always succeeds. -/
def restP (i : List Nat) : PResult (List Nat) :=
  .done [] i

/-- Nom `complete`: turn an incomplete outcome into a malformed error. -/
def completeP (f : List Nat → PResult α) (i : List Nat) : PResult α :=
  match f i with
  | .incomplete => .error
  | x => x

/-- Nom `map_opt` over a base parser: error when the lookup returns none. -/
def mapOptP (f : α → Option β) (base : List Nat → PResult α) (i : List Nat) : PResult β :=
  match base i with
  | .done r v =>
    match f v with
    | some w => .done r w
    | none => .error
  | .error => .error
  | .incomplete => .incomplete

/-- Nom `map_parser first second`: run `first`, apply `second` to the slice
it produced; the remaining input is `first`'s, the value `second`'s (its
leftover inside the slice is discarded). -/
def mapParserP (first : List Nat → PResult (List Nat)) (second : List Nat → PResult α)
    (i : List Nat) : PResult α :=
  match first i with
  | .done r s =>
    match second s with
    | .done _ v => .done r v
    | .error => .error
    | .incomplete => .incomplete
  | .error => .error
  | .incomplete => .incomplete

/-- Width of `usize` on the 64-bit targets the crate is built for. -/
def USIZE : Nat := 2 ^ 64

/-- Wrapping (release-mode) `usize` subtraction, for `a, b < 2^64`. -/
def usize_sub (a b : Nat) : Nat :=
  (a + (USIZE - b)) % USIZE

/-- Packet-format version of the outer packet (`types::Version`): old or new
format framing. -/
inductive Version : Type where
  | Old : Version
  | New : Version
deriving DecidableEq

/-- Signature body version discriminant (`SignatureVersion`). -/
inductive SignatureVersion : Type where
  | V2 | V3 | V4 | V5
deriving DecidableEq

/-- Modelled from the spec: the closed `from-code` lookup for the signature
body version (the enumeration itself lives outside `src/`); the four known
versions are 2, 3, 4, 5 and every other code fails. -/
def SignatureVersion.from_u8 : Nat → Option SignatureVersion
  | 2 => some .V2
  | 3 => some .V3
  | 4 => some .V4
  | 5 => some .V5
  | _ => none

/-- Signature type (`SignatureType`), a closed enumeration. -/
inductive SignatureType : Type where
  | Binary | Text | Standalone
  | CertGeneric | CertPersona | CertCasual | CertPositive
  | SubkeyBinding | KeyBinding | Key
  | KeyRevocation | SubkeyRevocation | CertRevocation
  | Timestamp | ThirdParty
deriving DecidableEq

/-- Modelled from the spec: the closed `from-code` lookup for signature
types (enumeration defined outside `src/`), per the OpenPGP code points;
unknown codes fail. -/
def SignatureType.from_u8 : Nat → Option SignatureType
  | 0x00 => some .Binary
  | 0x01 => some .Text
  | 0x02 => some .Standalone
  | 0x10 => some .CertGeneric
  | 0x11 => some .CertPersona
  | 0x12 => some .CertCasual
  | 0x13 => some .CertPositive
  | 0x18 => some .SubkeyBinding
  | 0x19 => some .KeyBinding
  | 0x1F => some .Key
  | 0x20 => some .KeyRevocation
  | 0x28 => some .SubkeyRevocation
  | 0x30 => some .CertRevocation
  | 0x40 => some .Timestamp
  | 0x50 => some .ThirdParty
  | _ => none

/-- Public-key algorithm (`PublicKeyAlgorithm`), a closed enumeration with a
private/experimental range 100..110. -/
inductive PublicKeyAlgorithm : Type where
  | RSA | RSAEncrypt | RSASign
  | Elgamal | DSA | ECDH | ECDSA | ElgamalSign | DiffieHellman | EdDSA
  | Private100 | Private101 | Private102 | Private103 | Private104
  | Private105 | Private106 | Private107 | Private108 | Private109 | Private110
deriving DecidableEq

/-- Modelled from the spec: the closed `from-code` lookup for public-key
algorithms (enumeration defined outside `src/`), per the OpenPGP code
points including the private/experimental range 100..110; unknown codes
fail. -/
def PublicKeyAlgorithm.from_u8 : Nat → Option PublicKeyAlgorithm
  | 1 => some .RSA
  | 2 => some .RSAEncrypt
  | 3 => some .RSASign
  | 16 => some .Elgamal
  | 17 => some .DSA
  | 18 => some .ECDH
  | 19 => some .ECDSA
  | 20 => some .ElgamalSign
  | 21 => some .DiffieHellman
  | 22 => some .EdDSA
  | 100 => some .Private100
  | 101 => some .Private101
  | 102 => some .Private102
  | 103 => some .Private103
  | 104 => some .Private104
  | 105 => some .Private105
  | 106 => some .Private106
  | 107 => some .Private107
  | 108 => some .Private108
  | 109 => some .Private109
  | 110 => some .Private110
  | _ => none

/-- Hash algorithm (`HashAlgorithm`), a closed enumeration. -/
inductive HashAlgorithm : Type where
  | MD5 | SHA1 | RIPEMD160 | SHA256 | SHA384 | SHA512 | SHA224
  | SHA3_256 | SHA3_512
deriving DecidableEq

/-- Modelled from the spec: the closed `from-code` lookup for hash
algorithms (enumeration defined outside `src/`); unknown codes such as 253
fail. -/
def HashAlgorithm.from_u8 : Nat → Option HashAlgorithm
  | 1 => some .MD5
  | 2 => some .SHA1
  | 3 => some .RIPEMD160
  | 8 => some .SHA256
  | 9 => some .SHA384
  | 10 => some .SHA512
  | 11 => some .SHA224
  | 12 => some .SHA3_256
  | 14 => some .SHA3_512
  | _ => none

/-- Symmetric-key algorithm codes (`SymmetricKeyAlgorithm`). -/
inductive SymmetricKeyAlgorithm : Type where
  | Plaintext | IDEA | TripleDES | CAST5 | Blowfish
  | AES128 | AES192 | AES256 | Twofish
deriving DecidableEq

/-- Modelled from the spec: the closed `from-code` lookup for symmetric-key
algorithms (enumeration defined outside `src/`); unknown codes fail. -/
def SymmetricKeyAlgorithm.from_u8 : Nat → Option SymmetricKeyAlgorithm
  | 0 => some .Plaintext
  | 1 => some .IDEA
  | 2 => some .TripleDES
  | 3 => some .CAST5
  | 4 => some .Blowfish
  | 7 => some .AES128
  | 8 => some .AES192
  | 9 => some .AES256
  | 10 => some .Twofish
  | _ => none

/-- Compression algorithm codes (`CompressionAlgorithm`). -/
inductive CompressionAlgorithm : Type where
  | Uncompressed | ZIP | ZLIB | BZip2
deriving DecidableEq

/-- Modelled from the spec: the closed `from-code` lookup for compression
algorithms (enumeration defined outside `src/`); unknown codes fail. -/
def CompressionAlgorithm.from_u8 : Nat → Option CompressionAlgorithm
  | 0 => some .Uncompressed
  | 1 => some .ZIP
  | 2 => some .ZLIB
  | 3 => some .BZip2
  | _ => none

/-- AEAD algorithm codes (`AeadAlgorithm`). -/
inductive AeadAlgorithm : Type where
  | NoAead | Eax | Ocb
deriving DecidableEq

/-- Modelled from the spec: the closed `from-code` lookup for AEAD
algorithms (enumeration defined outside `src/`); unknown codes fail. -/
def AeadAlgorithm.from_u8 : Nat → Option AeadAlgorithm
  | 0 => some .NoAead
  | 1 => some .Eax
  | 2 => some .Ocb
  | _ => none

/-- Revocation-key class byte (`RevocationKeyClass`): a validated closed
set. -/
inductive RevocationKeyClass : Type where
  | Default | Privacy
deriving DecidableEq

/-- Modelled from the spec: the closed `from-code` lookup for the
revocation-key class byte (enumeration defined outside `src/`). -/
def RevocationKeyClass.from_u8 : Nat → Option RevocationKeyClass
  | 0x80 => some .Default
  | 0xC0 => some .Privacy
  | _ => none

/-- Revocation reason codes (`RevocationCode`). -/
inductive RevocationCode : Type where
  | NoReason | KeySuperseded | KeyCompromised | KeyRetired | CertUserIdInvalid
deriving DecidableEq

/-- Modelled from the spec: the closed `from-code` lookup for revocation
reason codes (enumeration defined outside `src/`). -/
def RevocationCode.from_u8 : Nat → Option RevocationCode
  | 0 => some .NoReason
  | 1 => some .KeySuperseded
  | 2 => some .KeyCompromised
  | 3 => some .KeyRetired
  | 32 => some .CertUserIdInvalid
  | _ => none

/-- Key version codes (`KeyVersion`). -/
inductive KeyVersion : Type where
  | V2 | V3 | V4 | V5
deriving DecidableEq

/-- Modelled from the spec: the closed `from-code` lookup for key versions
(enumeration defined outside `src/`). -/
def KeyVersion.from_u8 : Nat → Option KeyVersion
  | 2 => some .V2
  | 3 => some .V3
  | 4 => some .V4
  | 5 => some .V5
  | _ => none

/-- Subpacket type tag (`SubpacketType`): the known kinds plus the two
catch-all constructors that retain the raw numeric code. -/
inductive SubpacketType : Type where
  | SignatureCreationTime
  | SignatureExpirationTime
  | ExportableCertification
  | TrustSignature
  | RegularExpression
  | Revocable
  | KeyExpirationTime
  | PreferredSymmetricAlgorithms
  | RevocationKey
  | Issuer
  | NotationData
  | PreferredHashAlgorithms
  | PreferredCompressionAlgorithms
  | KeyServerPreferences
  | PreferredKeyServer
  | PrimaryUserId
  | PolicyURI
  | KeyFlags
  | SignersUserID
  | RevocationReason
  | Features
  | SignatureTarget
  | EmbeddedSignature
  | IssuerFingerprint
  | PreferredAead
  | Experimental : Nat → SubpacketType
  | Other : Nat → SubpacketType
deriving DecidableEq

/-- Modelled from the spec: the subpacket type-tag lookup (defined outside
`src/`).  Known codes map to their kind; codes in the reserved
experimental range 100..110 map to the `Experimental` catch-all and every
other unknown code (e.g. 254) to the `Other` catch-all, each retaining the
raw numeric tag; the lookup never fails. -/
def SubpacketType.from_u8 (n : Nat) : Option SubpacketType :=
  match n with
  | 2 => some .SignatureCreationTime
  | 3 => some .SignatureExpirationTime
  | 4 => some .ExportableCertification
  | 5 => some .TrustSignature
  | 6 => some .RegularExpression
  | 7 => some .Revocable
  | 9 => some .KeyExpirationTime
  | 11 => some .PreferredSymmetricAlgorithms
  | 12 => some .RevocationKey
  | 16 => some .Issuer
  | 20 => some .NotationData
  | 21 => some .PreferredHashAlgorithms
  | 22 => some .PreferredCompressionAlgorithms
  | 23 => some .KeyServerPreferences
  | 24 => some .PreferredKeyServer
  | 25 => some .PrimaryUserId
  | 26 => some .PolicyURI
  | 27 => some .KeyFlags
  | 28 => some .SignersUserID
  | 29 => some .RevocationReason
  | 30 => some .Features
  | 31 => some .SignatureTarget
  | 32 => some .EmbeddedSignature
  | 33 => some .IssuerFingerprint
  | 34 => some .PreferredAead
  | _ => if 100 ≤ n ∧ n ≤ 110 then some (.Experimental n) else some (.Other n)

mutual

/-- Parse result of the deserializer (`Signature`).  Fields in order:
packet-format version of the outer packet, signature body version,
signature type, public-key algorithm, hash algorithm, the leftmost 16 bits
of the signed hash (2 bytes), the MPI sequence of the signature value,
hashed subpackets, unhashed subpackets, and the two convenience fields
creation time (epoch seconds) and issuer key id, populated only by the
legacy body grammar. -/
inductive Signature : Type where
  | mk : Version → SignatureVersion → SignatureType → PublicKeyAlgorithm → HashAlgorithm →
      List Nat → List (List Nat) → List Subpacket → List Subpacket →
      Option Nat → Option (List Nat) → Signature

/-- Subpacket sum type (`Subpacket`), one variant per grammar of the
dispatch table, plus the two catch-all variants retaining raw tag and raw
bytes.  Text values are represented by their byte sequences. -/
inductive Subpacket : Type where
  | SignatureCreationTime : Nat → Subpacket
  | SignatureExpirationTime : Nat → Subpacket
  | KeyExpirationTime : Nat → Subpacket
  | ExportableCertification : Bool → Subpacket
  | Revocable : Bool → Subpacket
  | TrustSignature : Nat → Nat → Subpacket
  | RegularExpression : List Nat → Subpacket
  | RevocationKey : RevocationKeyClass → PublicKeyAlgorithm → List Nat → Subpacket
  | Issuer : List Nat → Subpacket
  | NotationData : Bool → List Nat → List Nat → Subpacket
  | PreferredSymmetricAlgorithms : List SymmetricKeyAlgorithm → Subpacket
  | PreferredHashAlgorithms : List HashAlgorithm → Subpacket
  | PreferredCompressionAlgorithms : List CompressionAlgorithm → Subpacket
  | KeyServerPreferences : List Nat → Subpacket
  | PreferredKeyServer : List Nat → Subpacket
  | IsPrimary : Bool → Subpacket
  | PolicyURI : List Nat → Subpacket
  | KeyFlags : List Nat → Subpacket
  | SignersUserID : List Nat → Subpacket
  | RevocationReason : RevocationCode → List Nat → Subpacket
  | Features : List Nat → Subpacket
  | SignatureTarget : PublicKeyAlgorithm → HashAlgorithm → List Nat → Subpacket
  | EmbeddedSignature : Signature → Subpacket
  | IssuerFingerprint : KeyVersion → List Nat → Subpacket
  | PreferredAeadAlgorithms : List AeadAlgorithm → Subpacket
  | Experimental : Nat → List Nat → Subpacket
  | Other : Nat → List Nat → Subpacket

end

namespace Signature

/-- Constructor wrapper mirroring `Signature::new`: the convenience fields
`created` and `issuer` start out unset. -/
def new (pv : Version) (ver : SignatureVersion) (typ : SignatureType)
    (pubAlg : PublicKeyAlgorithm) (hashAlg : HashAlgorithm)
    (signedHashValue : List Nat) (sig : List (List Nat))
    (hashedSubpackets unhashedSubpackets : List Subpacket) : Signature :=
  .mk pv ver typ pubAlg hashAlg signedHashValue sig hashedSubpackets unhashedSubpackets
    none none

/-- Mirror of the field write `s.config.created = Some(created)`. -/
def withCreated : Signature → Nat → Signature
  | .mk pv ver typ pa ha lsh sig hs us _ iss, t =>
    .mk pv ver typ pa ha lsh sig hs us (some t) iss

/-- Mirror of the field write `s.config.issuer = Some(issuer)`. -/
def withIssuer : Signature → List Nat → Signature
  | .mk pv ver typ pa ha lsh sig hs us c _, kid =>
    .mk pv ver typ pa ha lsh sig hs us c (some kid)

/-- Packet-format version of the outer packet. -/
def packetVersion : Signature → Version
  | .mk pv _ _ _ _ _ _ _ _ _ _ => pv

/-- Signature body version. -/
def version : Signature → SignatureVersion
  | .mk _ v _ _ _ _ _ _ _ _ _ => v

/-- Signature type. -/
def typ : Signature → SignatureType
  | .mk _ _ t _ _ _ _ _ _ _ _ => t

/-- Public-key algorithm. -/
def pubAlg : Signature → PublicKeyAlgorithm
  | .mk _ _ _ p _ _ _ _ _ _ _ => p

/-- Hash algorithm. -/
def hashAlg : Signature → HashAlgorithm
  | .mk _ _ _ _ h _ _ _ _ _ _ => h

/-- Leftmost 16 bits of the signed hash (2 bytes). -/
def signedHashValue : Signature → List Nat
  | .mk _ _ _ _ _ l _ _ _ _ _ => l

/-- MPI sequence of the signature value. -/
def sig : Signature → List (List Nat)
  | .mk _ _ _ _ _ _ s _ _ _ _ => s

/-- Hashed subpacket sequence. -/
def hashedSubpackets : Signature → List Subpacket
  | .mk _ _ _ _ _ _ _ h _ _ _ => h

/-- Unhashed subpacket sequence. -/
def unhashedSubpackets : Signature → List Subpacket
  | .mk _ _ _ _ _ _ _ _ u _ _ => u

/-- Convenience creation-time field (epoch seconds). -/
def created : Signature → Option Nat
  | .mk _ _ _ _ _ _ _ _ _ c _ => c

/-- Convenience issuer key-id field. -/
def issuer : Signature → Option (List Nat)
  | .mk _ _ _ _ _ _ _ _ _ _ i => i

end Signature

/-- Continuation-byte test for UTF-8 (0x80..0xBF). -/
def utf8cont (c : Nat) : Bool :=
  decide (0x80 ≤ c) && decide (c ≤ 0xBF)

/-- Validity of a byte sequence as UTF-8, with the exact acceptance set of
Rust's `str::from_utf8` (RFC 3629: no overlong forms, no surrogates, no
code points above U+10FFFF). -/
def isValidUtf8 : List Nat → Bool
  | [] => true
  | b :: r =>
    if b ≤ 0x7F then isValidUtf8 r
    else if b < 0xC2 then false
    else if b ≤ 0xDF then
      match r with
      | c :: r2 => utf8cont c && isValidUtf8 r2
      | [] => false
    else if b ≤ 0xEF then
      match r with
      | c :: d :: r2 =>
        (if b = 0xE0 then decide (0xA0 ≤ c) && decide (c ≤ 0xBF)
         else if b = 0xED then decide (0x80 ≤ c) && decide (c ≤ 0x9F)
         else utf8cont c) && utf8cont d && isValidUtf8 r2
      | _ => false
    else if b ≤ 0xF4 then
      match r with
      | c :: d :: e :: r2 =>
        (if b = 0xF0 then decide (0x90 ≤ c) && decide (c ≤ 0xBF)
         else if b = 0xF4 then decide (0x80 ≤ c) && decide (c ≤ 0x8F)
         else utf8cont c) && utf8cont d && utf8cont e && isValidUtf8 r2
      | _ => false
    else false

/-- Modelled from the spec: `util::read_string` (defined outside `src/`),
the text decoding used where decoding failure is not fatal — it consumes
the given bytes as text and never fails; the decoded text is represented
here by its byte sequence. -/
def read_string (b : List Nat) : List Nat := b

/-- Rust `str::from_utf8` as used through `map_res`: succeeds exactly on
valid UTF-8, returning the text (represented by its byte sequence). -/
def from_utf8 (b : List Nat) : Option (List Nat) :=
  if isValidUtf8 b then some b else none

/-- Modelled from the spec: `KeyId::from_slice` (defined outside `src/`)
accepts exactly an 8-byte key identifier. -/
def KeyId.from_slice (b : List Nat) : Option (List Nat) :=
  if b.length = 8 then some b else none

/-- Modelled from the spec: `util::packet_length` (defined outside `src/`),
the OpenPGP variable-width scalar length: a 1-octet form for values below
192, a 2-octet form for 192..8383 introduced by a first octet in 192..254,
and a 5-octet form marked by a first octet of 255 followed by a big-endian
4-octet value.  Streaming: missing octets signal incomplete input. -/
def packet_length : List Nat → PResult Nat
  | [] => .incomplete
  | b :: r =>
    if b < 192 then .done r b
    else if b < 255 then
      match r with
      | c :: r2 => .done r2 ((b - 192) * 256 + c + 192)
      | [] => .incomplete
    else
      match r with
      | a :: b2 :: c :: d :: r2 => .done r2 (((a * 256 + b2) * 256 + c) * 256 + d)
      | _ => .incomplete

/-- Modelled from the spec: `types::mpi` (defined outside `src/`), the
opaque parse-one-value primitive for multi-precision integers: a 2-octet
big-endian bit-length followed by the corresponding number of value
octets; the value is represented by its raw octets. -/
def mpi (i : List Nat) : PResult (List Nat) :=
  (be_u16P i).pbind fun i1 bits => takeP ((bits + 7) / 8) i1

/-- Type of the top-level signature parse entry point, abstracted so the
grammar table can be stated before the recursive knot is tied. -/
abbrev SigParseFn := List Nat → Version → PResult Signature

/-- Parser for the signature creation time subpacket
(`signature_creation_time`): a 4-octet time field. -/
def signature_creation_time (i : List Nat) : PResult Subpacket :=
  (be_u32P i).pmap fun date => .SignatureCreationTime date

/-- Parser for the issuer subpacket (`issuer`): 8 octets taken in complete
mode and converted through `KeyId::from_slice`. -/
def issuer (i : List Nat) : PResult Subpacket :=
  match completeP (takeP 8) i with
  | .done r v =>
    match KeyId.from_slice v with
    | some kid => .done r (.Issuer kid)
    | none => .error
  | .error => .error
  | .incomplete => .incomplete

/-- Parser for the key expiration time subpacket (`key_expiration`). -/
def key_expiration (i : List Nat) : PResult Subpacket :=
  (be_u32P i).pmap fun date => .KeyExpirationTime date

/-- Helper for the preferred-algorithm list subpackets: map every body byte
through a `from-code` lookup, failing if any byte is unknown. -/
def mapAllBytes (f : Nat → Option α) : List Nat → Option (List α)
  | [] => some []
  | b :: r =>
    match f b, mapAllBytes f r with
    | some v, some vs => some (v :: vs)
    | _, _ => none

/-- Parser for the preferred symmetric algorithms subpacket
(`pref_sym_alg`): every body byte must be a known algorithm code. -/
def pref_sym_alg (body : List Nat) : PResult Subpacket :=
  match mapAllBytes SymmetricKeyAlgorithm.from_u8 body with
  | some list => .done [] (.PreferredSymmetricAlgorithms list)
  | none => .error

/-- Parser for the preferred hash algorithms subpacket (`pref_hash_alg`). -/
def pref_hash_alg (body : List Nat) : PResult Subpacket :=
  match mapAllBytes HashAlgorithm.from_u8 body with
  | some list => .done [] (.PreferredHashAlgorithms list)
  | none => .error

/-- Parser for the preferred compression algorithms subpacket
(`pref_com_alg`). -/
def pref_com_alg (body : List Nat) : PResult Subpacket :=
  match mapAllBytes CompressionAlgorithm.from_u8 body with
  | some list => .done [] (.PreferredCompressionAlgorithms list)
  | none => .error

/-- Parser for the signature expiration time subpacket
(`signature_expiration_time`). -/
def signature_expiration_time (i : List Nat) : PResult Subpacket :=
  (be_u32P i).pmap fun date => .SignatureExpirationTime date

/-- Parser for the exportable certification subpacket
(`exportable_certification`): one octet in complete mode, mapped to a
boolean by equality with 1. -/
def exportable_certification (i : List Nat) : PResult Subpacket :=
  (completeP be_u8P i).pmap fun v => .ExportableCertification (v == 1)

/-- Parser for the revocable subpacket (`revocable`). -/
def revocable (i : List Nat) : PResult Subpacket :=
  (completeP be_u8P i).pmap fun v => .Revocable (v == 1)

/-- Parser for the trust signature subpacket (`trust_signature`): two raw
octets, depth and trust value. -/
def trust_signature (i : List Nat) : PResult Subpacket :=
  (be_u8P i).pbind fun i1 depth =>
  (be_u8P i1).pmap fun value => .TrustSignature depth value

/-- Parser for the regular expression subpacket (`regular_expression`): all
remaining bytes decoded as text via `read_string`. -/
def regular_expression (i : List Nat) : PResult Subpacket :=
  (restP i).pmap fun b => .RegularExpression (read_string b)

/-- Parser for the revocation key subpacket (`revocation_key`): validated
class octet, validated algorithm octet, 20-octet fingerprint. -/
def revocation_key (i : List Nat) : PResult Subpacket :=
  (mapOptP RevocationKeyClass.from_u8 be_u8P i).pbind fun i1 cls =>
  (mapOptP PublicKeyAlgorithm.from_u8 be_u8P i1).pbind fun i2 alg =>
  (takeP 20 i2).pmap fun fp => .RevocationKey cls alg fp

/-- Parser for the notation data subpacket (`notation_data`): one flag
octet mapped to the human-readable boolean by equality with 0x80, a
mandatory tag of three zero octets, two 2-octet lengths, then the name and
value bytes, each decoded as text. -/
def notation_data (i : List Nat) : PResult Subpacket :=
  (be_u8P i).pbind fun i1 v =>
  (tagP [0, 0, 0] i1).pbind fun i2 _ =>
  (be_u16P i2).pbind fun i3 name_len =>
  (be_u16P i3).pbind fun i4 value_len =>
  (takeP name_len i4).pbind fun i5 nameB =>
  (takeP value_len i5).pmap fun valueB =>
    .NotationData (v == 0x80) (read_string nameB) (read_string valueB)

/-- Parser for the key server preferences subpacket (`key_server_prefs`):
the raw body bytes are retained without validation. -/
def key_server_prefs (body : List Nat) : PResult Subpacket :=
  .done [] (.KeyServerPreferences body)

/-- Parser for the preferred key server subpacket (`preferred_key_server`):
all remaining bytes through `str::from_utf8`; invalid UTF-8 is fatal. -/
def preferred_key_server (i : List Nat) : PResult Subpacket :=
  match restP i with
  | .done r b =>
    match from_utf8 b with
    | some s => .done r (.PreferredKeyServer s)
    | none => .error
  | .error => .error
  | .incomplete => .incomplete

/-- Parser for the primary user id subpacket (`primary_userid`). -/
def primary_userid (i : List Nat) : PResult Subpacket :=
  (be_u8P i).pmap fun a => .IsPrimary (a == 1)

/-- Parser for the policy URI subpacket (`policy_uri`): all remaining bytes
decoded as text via `read_string`. -/
def policy_uri (i : List Nat) : PResult Subpacket :=
  (restP i).pmap fun b => .PolicyURI (read_string b)

/-- Parser for the key flags subpacket (`key_flags`): raw bytes retained. -/
def key_flags (body : List Nat) : PResult Subpacket :=
  .done [] (.KeyFlags body)

/-- Parser for the signer's user id subpacket (`signers_userid`): all
remaining bytes through `str::from_utf8`; invalid UTF-8 is fatal. -/
def signers_userid (i : List Nat) : PResult Subpacket :=
  match restP i with
  | .done r b =>
    match from_utf8 b with
    | some s => .done r (.SignersUserID s)
    | none => .error
  | .error => .error
  | .incomplete => .incomplete

/-- Parser for the features subpacket (`features`): raw bytes retained. -/
def features (body : List Nat) : PResult Subpacket :=
  .done [] (.Features body)

/-- Parser for the revocation reason subpacket (`rev_reason`): a validated
reason-code octet, then the remaining bytes as text. -/
def rev_reason (i : List Nat) : PResult Subpacket :=
  (mapOptP RevocationCode.from_u8 be_u8P i).pbind fun i1 code =>
  (restP i1).pmap fun b => .RevocationReason code (read_string b)

/-- Parser for the signature target subpacket (`sig_target`): validated
public-key and hash algorithm octets, then the digest bytes. -/
def sig_target (i : List Nat) : PResult Subpacket :=
  (mapOptP PublicKeyAlgorithm.from_u8 be_u8P i).pbind fun i1 pub_alg =>
  (mapOptP HashAlgorithm.from_u8 be_u8P i1).pbind fun i2 hash_alg =>
  (restP i2).pmap fun h => .SignatureTarget pub_alg hash_alg h

/-- Parser for the embedded signature subpacket (`embedded_sig`): the body
is handed to the top-level entry point tagged with the new packet-format
version, and the resulting signature is owned by the variant. -/
def embedded_sig (p : SigParseFn) (body : List Nat) : PResult Subpacket :=
  (p body Version.New).pmap fun s => .EmbeddedSignature s

/-- Parser for the issuer fingerprint subpacket (`issuer_fingerprint`): a
validated key-version octet, then the fingerprint bytes retained
verbatim. -/
def issuer_fingerprint (i : List Nat) : PResult Subpacket :=
  (mapOptP KeyVersion.from_u8 be_u8P i).pbind fun i1 ver =>
  (restP i1).pmap fun fp => .IssuerFingerprint ver fp

/-- Parser for the preferred AEAD algorithms subpacket (`pref_aead_alg`). -/
def pref_aead_alg (body : List Nat) : PResult Subpacket :=
  match mapAllBytes AeadAlgorithm.from_u8 body with
  | some list => .done [] (.PreferredAeadAlgorithms list)
  | none => .error

/-- Dispatch of the subpacket grammar table (`subpacket`): the typed kind
selects the grammar applied to the body slice; the two catch-all kinds
succeed unconditionally, retaining the raw numeric tag and the raw body
bytes (and leaving the body unconsumed, as in the source). -/
def subpacketGo (p : SigParseFn) (typ : SubpacketType) (body : List Nat) : PResult Subpacket :=
  match typ with
  | .SignatureCreationTime => signature_creation_time body
  | .SignatureExpirationTime => signature_expiration_time body
  | .ExportableCertification => exportable_certification body
  | .TrustSignature => trust_signature body
  | .RegularExpression => regular_expression body
  | .Revocable => revocable body
  | .KeyExpirationTime => key_expiration body
  | .PreferredSymmetricAlgorithms => pref_sym_alg body
  | .RevocationKey => revocation_key body
  | .Issuer => issuer body
  | .NotationData => notation_data body
  | .PreferredHashAlgorithms => pref_hash_alg body
  | .PreferredCompressionAlgorithms => pref_com_alg body
  | .KeyServerPreferences => key_server_prefs body
  | .PreferredKeyServer => preferred_key_server body
  | .PrimaryUserId => primary_userid body
  | .PolicyURI => policy_uri body
  | .KeyFlags => key_flags body
  | .SignersUserID => signers_userid body
  | .RevocationReason => rev_reason body
  | .Features => features body
  | .SignatureTarget => sig_target body
  | .EmbeddedSignature => embedded_sig p body
  | .IssuerFingerprint => issuer_fingerprint body
  | .PreferredAead => pref_aead_alg body
  | .Experimental n => .done body (.Experimental n body)
  | .Other n => .done body (.Other n body)

/-- One iteration of the subpacket sequence loop (the closure inside
`subpackets`), wrapped in nom `complete`: decode the variable-width length,
the one-octet type tag, then slice exactly `length - 1` body octets
(wrapping `usize` subtraction) and run the grammar table on them. -/
def itemGo (p : SigParseFn) (i : List Nat) : PResult Subpacket :=
  completeP (fun j =>
    (packet_length j).pbind fun j1 len =>
    (mapOptP SubpacketType.from_u8 be_u8P j1).pbind fun j2 typ =>
    mapParserP (takeP (usize_sub len 1)) (fun b => subpacketGo p typ b) j2) i

/-- The `many0` loop of `subpackets`: accumulate items until the item
parser fails with an error (which ends the loop successfully), erroring on
an iteration that consumes nothing and propagating incompleteness.  The
loop counter is structural; `subpacketsGo` supplies one more than the
input length, which the item's mandatory consumption can never exhaust. -/
def many0go (p : SigParseFn) : Nat → List Nat → PResult (List Subpacket)
  | 0, _ => .error
  | k + 1, i =>
    match itemGo p i with
    | .done i1 v =>
      if i1 = i then .error
      else
        match many0go p k i1 with
        | .done r vs => .done r (v :: vs)
        | .error => .error
        | .incomplete => .incomplete
    | .error => .done i []
    | .incomplete => .incomplete

/-- The subpacket sequence grammar (`subpackets`): `many0` over the
complete-wrapped item parser. -/
def subpacketsGo (p : SigParseFn) (i : List Nat) : PResult (List Subpacket) :=
  many0go p (i.length + 1) i

/-- The algorithm-keyed signature value decoder (`actual_signature`): one
MPI for the RSA family, exactly two (via `fold_many_m_n 2 2`, with nom's
non-consumption guard) for DSA/ECDSA/EdDSA, one for each private code and
one for every other algorithm. -/
def actual_signature (input : List Nat) (typ : PublicKeyAlgorithm) :
    PResult (List (List Nat)) :=
  match typ with
  | .RSA | .RSASign => (mpi input).pmap fun v => [v]
  | .DSA | .ECDSA | .EdDSA =>
    match mpi input with
    | .done r1 a =>
      if r1 = input then .error
      else
        match mpi r1 with
        | .done r2 b => if r2 = r1 then .error else .done r2 [a, b]
        | .error => .error
        | .incomplete => .incomplete
    | .error => .error
    | .incomplete => .incomplete
  | .Private100 | .Private101 | .Private102 | .Private103 | .Private104
  | .Private105 | .Private106 | .Private107 | .Private108 | .Private109
  | .Private110 => (mpi input).pmap fun v => [v]
  | _ => (mpi input).pmap fun v => [v]

/-- The legacy V2/V3 signature body grammar (`v3_parser` in the source): a
literal hashed-material length octet of 5, validated signature type,
4-octet creation time, 8-octet issuer key id, validated public-key and
hash algorithms, 2-octet truncated hash, then the algorithm-keyed value;
creation time and issuer are written into the convenience fields and both
subpacket sequences are empty. -/
def v3_body (input : List Nat) (packet_version : Version)
    (version : SignatureVersion) : PResult Signature :=
  (tagP [5] input).pbind fun i1 _ =>
  (mapOptP SignatureType.from_u8 be_u8P i1).pbind fun i2 typ =>
  (be_u32P i2).pbind fun i3 created =>
  (mapOptP KeyId.from_slice (takeP 8) i3).pbind fun i4 iss =>
  (mapOptP PublicKeyAlgorithm.from_u8 be_u8P i4).pbind fun i5 pub_alg =>
  (mapOptP HashAlgorithm.from_u8 be_u8P i5).pbind fun i6 hash_alg =>
  (takeP 2 i6).pbind fun i7 ls_hash =>
  (actual_signature i7 pub_alg).pmap fun sig =>
    ((Signature.new packet_version version typ pub_alg hash_alg ls_hash sig [] []).withCreated
      created).withIssuer iss

/-- The modern V4/V5 signature body grammar (`v4_parser` in the source),
with the subpacket machinery abstracted over the top-level entry point:
validated type and algorithm octets, a 2-octet hashed-area length with
exactly that many bytes parsed as subpackets, the same for the unhashed
area, a 2-octet truncated hash, then the algorithm-keyed value. -/
def v4_bodyGo (p : SigParseFn) (input : List Nat) (packet_version : Version)
    (version : SignatureVersion) : PResult Signature :=
  (mapOptP SignatureType.from_u8 be_u8P input).pbind fun i1 typ =>
  (mapOptP PublicKeyAlgorithm.from_u8 be_u8P i1).pbind fun i2 pub_alg =>
  (mapOptP HashAlgorithm.from_u8 be_u8P i2).pbind fun i3 hash_alg =>
  (be_u16P i3).pbind fun i4 hsub_len =>
  (mapParserP (takeP hsub_len) (subpacketsGo p) i4).pbind fun i5 hsub =>
  (be_u16P i5).pbind fun i6 usub_len =>
  (mapParserP (takeP usub_len) (subpacketsGo p) i6).pbind fun i7 usub =>
  (takeP 2 i7).pbind fun i8 ls_hash =>
  (actual_signature i8 pub_alg).pmap fun sig =>
    Signature.new packet_version version typ pub_alg hash_alg ls_hash sig hsub usub

/-- The top-level body of `parse`, abstracted over the entry point used for
embedded signatures: read and validate the version discriminant, then
dispatch to the legacy or modern body grammar. -/
def parseBodyGo (p : SigParseFn) (i : List Nat) (packet_version : Version) :
    PResult Signature :=
  (mapOptP SignatureVersion.from_u8 be_u8P i).pbind fun i1 version =>
    match version with
    | .V2 => v3_body i1 packet_version .V2
    | .V3 => v3_body i1 packet_version .V3
    | .V4 => v4_bodyGo p i1 packet_version .V4
    | .V5 => v4_bodyGo p i1 packet_version .V5

/-- Fuelled form of the top-level entry point: the fuel bounds the
embedded-signature recursion depth and strictly exceeds the input length
at every reachable call, so it never runs out from the exported entry
points. -/
def parseF : Nat → List Nat → Version → PResult Signature
  | 0, _, _ => .error
  | f + 1, i, pv => parseBodyGo (fun b v => parseF f b v) i pv

/-- The top-level entry point (`parse`): reads the version discriminant and
routes to the matching body grammar; the sole externally invoked
operation and the re-entry point of the embedded-signature recursion. -/
def parse (i : List Nat) (packet_version : Version) : PResult Signature :=
  parseF (i.length + 1) i packet_version

/-- The `Deserialize` implementation (`Signature::from_slice`): run `parse`
on the slice and keep only the produced signature, discarding the
unconsumed remaining input; any parse failure is surfaced as an error
(`none`). -/
def Signature.from_slice (packet_version : Version) (input : List Nat) :
    Option Signature :=
  match parse input packet_version with
  | .done _ s => some s
  | .error => none
  | .incomplete => none

/-- A successful one-byte read exposes the head of the input. -/
theorem be_u8P_done {i r : List Nat} {v : Nat} (h : be_u8P i = .done r v) :
    i = v :: r := by
  cases i with
  | nil => simp [be_u8P] at h
  | cons b t =>
    simp [be_u8P] at h
    obtain ⟨rfl, rfl⟩ := h
    rfl

/-- A successful two-byte read exposes the two head octets. -/
theorem be_u16P_done {i r : List Nat} {v : Nat} (h : be_u16P i = .done r v) :
    ∃ a b, i = a :: b :: r ∧ v = a * 256 + b := by
  match i with
  | [] => simp [be_u16P] at h
  | [a] => simp [be_u16P] at h
  | a :: b :: t =>
    simp [be_u16P] at h
    obtain ⟨rfl, rfl⟩ := h
    exact ⟨a, b, rfl, rfl⟩

/-- A successful four-byte read exposes the four head octets. -/
theorem be_u32P_done {i r : List Nat} {v : Nat} (h : be_u32P i = .done r v) :
    ∃ a b c d, i = a :: b :: c :: d :: r ∧ v = ((a * 256 + b) * 256 + c) * 256 + d := by
  match i with
  | [] => simp [be_u32P] at h
  | [a] => simp [be_u32P] at h
  | [a, b] => simp [be_u32P] at h
  | [a, b, c] => simp [be_u32P] at h
  | a :: b :: c :: d :: t =>
    simp [be_u32P] at h
    obtain ⟨rfl, rfl⟩ := h
    exact ⟨a, b, c, d, rfl, rfl⟩

/-- A successful `take n` splits the input after `n` octets. -/
theorem takeP_done {n : Nat} {i r v : List Nat} (h : takeP n i = .done r v) :
    i = v ++ r ∧ v.length = n ∧ n ≤ i.length := by
  unfold takeP at h
  split at h
  · rename_i hle
    cases h
    exact ⟨(List.take_append_drop n i).symm, List.length_take_of_le hle, hle⟩
  · cases h

/-- A successful `tag t` splits the input after the literal. -/
theorem tagP_done {t i r : List Nat} {u : Unit} (h : tagP t i = .done r u) :
    i = t ++ r := by
  unfold tagP at h
  split at h
  · rename_i htake
    cases h
    conv_lhs => rw [← List.take_append_drop t.length i]
    rw [htake]
  · split at h <;> cases h

/-- Successful `mapOptP` decomposes into the base parser and the lookup. -/
theorem mapOptP_done {f : α → Option β} {base : List Nat → PResult α} {i r : List Nat} {w : β} :
    mapOptP f base i = .done r w ↔ ∃ v, base i = .done r v ∧ f v = some w := by
  rcases h : base i with ⟨r1, v1⟩ | _ | _ <;> simp [mapOptP, h]
  rcases hf : f v1 with _ | w1 <;> simp [hf] <;> aesop

/-- Successful `mapParserP` decomposes into the slicing step and the inner
parse of the slice (whose leftover is discarded). -/
theorem mapParserP_done {first : List Nat → PResult (List Nat)}
    {second : List Nat → PResult α} {i r : List Nat} {v : α} :
    mapParserP first second i = .done r v ↔
      ∃ s w, first i = .done r s ∧ second s = .done w v := by
  rcases h : first i with ⟨r1, s1⟩ | _ | _ <;> simp [mapParserP, h]
  rcases h2 : second s1 with ⟨r2, v2⟩ | _ | _ <;> simp [h2] <;> aesop

/-- Appending extra bytes after a successful one-byte read leaves the value
unchanged and appends the extra bytes to the remaining input. -/
theorem be_u8P_ext {i r e : List Nat} {v : Nat} (h : be_u8P i = .done r v) :
    be_u8P (i ++ e) = .done (r ++ e) v := by
  rw [be_u8P_done h]
  rfl

/-- Extension property of the two-byte reader. -/
theorem be_u16P_ext {i r e : List Nat} {v : Nat} (h : be_u16P i = .done r v) :
    be_u16P (i ++ e) = .done (r ++ e) v := by
  obtain ⟨a, b, rfl, rfl⟩ := be_u16P_done h
  rfl

/-- Extension property of the four-byte reader. -/
theorem be_u32P_ext {i r e : List Nat} {v : Nat} (h : be_u32P i = .done r v) :
    be_u32P (i ++ e) = .done (r ++ e) v := by
  obtain ⟨a, b, c, d, rfl, rfl⟩ := be_u32P_done h
  rfl

/-- Extension property of `take n`: the same slice is produced. -/
theorem takeP_ext {n : Nat} {i r v e : List Nat} (h : takeP n i = .done r v) :
    takeP n (i ++ e) = .done (r ++ e) v := by
  obtain ⟨rfl, rfl, hle⟩ := takeP_done h
  unfold takeP
  rw [List.append_assoc]
  have h1 : (v ++ (r ++ e)).take v.length = v := List.take_left v (r ++ e)
  have h2 : (v ++ (r ++ e)).drop v.length = r ++ e := List.drop_left v (r ++ e)
  have h3 : v.length ≤ (v ++ (r ++ e)).length := by
    simp [List.length_append]
  rw [if_pos h3, h1, h2]

/-- Extension property of `tag t`. -/
theorem tagP_ext {t i r e : List Nat} {u : Unit} (h : tagP t i = .done r u) :
    tagP t (i ++ e) = .done (r ++ e) u := by
  rw [tagP_done h]
  unfold tagP
  rw [List.append_assoc]
  rw [if_pos (List.take_left t (r ++ e)), List.drop_left t (r ++ e)]

/-- Extension property of `mapOptP` over a base parser that has it. -/
theorem mapOptP_ext {f : α → Option β} {base : List Nat → PResult α} {i r e : List Nat} {w : β}
    (hbase : ∀ {i r : List Nat} {v : α}, base i = .done r v → base (i ++ e) = .done (r ++ e) v)
    (h : mapOptP f base i = .done r w) : mapOptP f base (i ++ e) = .done (r ++ e) w := by
  obtain ⟨v, hb, hf⟩ := mapOptP_done.mp h
  exact mapOptP_done.mpr ⟨v, hbase hb, hf⟩

/-- Extension property of `mapParserP` over `take n`: the inner parse sees
the identical slice, so only the outer remaining input grows. -/
theorem mapParserP_take_ext {n : Nat} {second : List Nat → PResult α} {i r e : List Nat} {v : α}
    (h : mapParserP (takeP n) second i = .done r v) :
    mapParserP (takeP n) second (i ++ e) = .done (r ++ e) v := by
  obtain ⟨s, w, h1, h2⟩ := mapParserP_done.mp h
  exact mapParserP_done.mpr ⟨s, w, takeP_ext h1, h2⟩

/-- Extension property of the MPI primitive. -/
theorem mpi_ext {i r e : List Nat} {v : List Nat} (h : mpi i = .done r v) :
    mpi (i ++ e) = .done (r ++ e) v := by
  unfold mpi at h ⊢
  obtain ⟨i1, bits, h1, h2⟩ := pbind_eq_done.mp h
  exact pbind_eq_done.mpr ⟨i1 ++ e, bits, be_u16P_ext h1, takeP_ext h2⟩

/-- A successful MPI parse consumes at least its two length octets. -/
theorem mpi_consumes {i r : List Nat} {v : List Nat} (h : mpi i = .done r v) :
    r.length + 2 ≤ i.length := by
  unfold mpi at h
  obtain ⟨i1, bits, h1, h2⟩ := pbind_eq_done.mp h
  obtain ⟨a, b, rfl, _⟩ := be_u16P_done h1
  obtain ⟨rfl, _, hle⟩ := takeP_done h2
  simp only [List.length_cons, List.length_append]
  omega

/-- Extension property of the algorithm-keyed signature value decoder. -/
theorem actual_signature_ext {i r e : List Nat} {typ : PublicKeyAlgorithm}
    {v : List (List Nat)} (h : actual_signature i typ = .done r v) :
    actual_signature (i ++ e) typ = .done (r ++ e) v := by
  cases typ <;> simp only [actual_signature] at h ⊢ <;>
    try
      (obtain ⟨w, hw, rfl⟩ := pmap_eq_done.mp h
       exact pmap_eq_done.mpr ⟨w, mpi_ext hw, rfl⟩)
  all_goals {
    rcases h1 : mpi i with ⟨r1, a⟩ | _ | _ <;> rw [h1] at h <;> dsimp only at h <;> try cases h
    rw [mpi_ext h1]
    dsimp only
    by_cases hg1 : r1 = i
    · rw [if_pos hg1] at h
      cases h
    · rw [if_neg hg1] at h
      have hg1e : ¬ r1 ++ e = i ++ e := fun hc => hg1 (List.append_cancel_right hc)
      rw [if_neg hg1e]
      rcases h2 : mpi r1 with ⟨r2, b⟩ | _ | _ <;> rw [h2] at h <;> dsimp only at h <;> try cases h
      rw [mpi_ext h2]
      dsimp only
      by_cases hg2 : r2 = r1
      · rw [if_pos hg2] at h
        cases h
      · rw [if_neg hg2] at h
        have hg2e : ¬ r2 ++ e = r1 ++ e := fun hc => hg2 (List.append_cancel_right hc)
        rw [if_neg hg2e]
        injection h with ha hb
        rw [ha, hb]
  }

/-- Extension property of the legacy body grammar: appending bytes after a
successful parse only extends the remaining input. -/
theorem v3_body_ext {i r e : List Nat} {pv : Version} {ver : SignatureVersion} {s : Signature}
    (h : v3_body i pv ver = .done r s) : v3_body (i ++ e) pv ver = .done (r ++ e) s := by
  unfold v3_body at h ⊢
  obtain ⟨i1, u, h1, h⟩ := pbind_eq_done.mp h
  obtain ⟨i2, typ, h2, h⟩ := pbind_eq_done.mp h
  obtain ⟨i3, created, h3, h⟩ := pbind_eq_done.mp h
  obtain ⟨i4, iss, h4, h⟩ := pbind_eq_done.mp h
  obtain ⟨i5, pa, h5, h⟩ := pbind_eq_done.mp h
  obtain ⟨i6, ha, h6, h⟩ := pbind_eq_done.mp h
  obtain ⟨i7, lsh, h7, h⟩ := pbind_eq_done.mp h
  obtain ⟨sg, h8, rfl⟩ := pmap_eq_done.mp h
  exact pbind_eq_done.mpr ⟨i1 ++ e, u, tagP_ext h1,
    pbind_eq_done.mpr ⟨i2 ++ e, typ, mapOptP_ext (fun hb => be_u8P_ext hb) h2,
    pbind_eq_done.mpr ⟨i3 ++ e, created, be_u32P_ext h3,
    pbind_eq_done.mpr ⟨i4 ++ e, iss, mapOptP_ext (fun hb => takeP_ext hb) h4,
    pbind_eq_done.mpr ⟨i5 ++ e, pa, mapOptP_ext (fun hb => be_u8P_ext hb) h5,
    pbind_eq_done.mpr ⟨i6 ++ e, ha, mapOptP_ext (fun hb => be_u8P_ext hb) h6,
    pbind_eq_done.mpr ⟨i7 ++ e, lsh, takeP_ext h7,
    pmap_eq_done.mpr ⟨sg, actual_signature_ext h8, rfl⟩⟩⟩⟩⟩⟩⟩⟩

/-- Extension property of the modern body grammar, for any entry point used
inside the length-bounded subpacket slices (those slices are identical on
the extended input, so the inner results agree exactly). -/
theorem v4_bodyGo_ext {p : SigParseFn} {i r e : List Nat} {pv : Version}
    {ver : SignatureVersion} {s : Signature}
    (h : v4_bodyGo p i pv ver = .done r s) : v4_bodyGo p (i ++ e) pv ver = .done (r ++ e) s := by
  unfold v4_bodyGo at h ⊢
  obtain ⟨i1, typ, h1, h⟩ := pbind_eq_done.mp h
  obtain ⟨i2, pa, h2, h⟩ := pbind_eq_done.mp h
  obtain ⟨i3, ha, h3, h⟩ := pbind_eq_done.mp h
  obtain ⟨i4, hlen, h4, h⟩ := pbind_eq_done.mp h
  obtain ⟨i5, hsub, h5, h⟩ := pbind_eq_done.mp h
  obtain ⟨i6, ulen, h6, h⟩ := pbind_eq_done.mp h
  obtain ⟨i7, usub, h7, h⟩ := pbind_eq_done.mp h
  obtain ⟨i8, lsh, h8, h⟩ := pbind_eq_done.mp h
  obtain ⟨sg, h9, rfl⟩ := pmap_eq_done.mp h
  exact pbind_eq_done.mpr ⟨i1 ++ e, typ, mapOptP_ext (fun hb => be_u8P_ext hb) h1,
    pbind_eq_done.mpr ⟨i2 ++ e, pa, mapOptP_ext (fun hb => be_u8P_ext hb) h2,
    pbind_eq_done.mpr ⟨i3 ++ e, ha, mapOptP_ext (fun hb => be_u8P_ext hb) h3,
    pbind_eq_done.mpr ⟨i4 ++ e, hlen, be_u16P_ext h4,
    pbind_eq_done.mpr ⟨i5 ++ e, hsub, mapParserP_take_ext h5,
    pbind_eq_done.mpr ⟨i6 ++ e, ulen, be_u16P_ext h6,
    pbind_eq_done.mpr ⟨i7 ++ e, usub, mapParserP_take_ext h7,
    pbind_eq_done.mpr ⟨i8 ++ e, lsh, takeP_ext h8,
    pmap_eq_done.mpr ⟨sg, actual_signature_ext h9, rfl⟩⟩⟩⟩⟩⟩⟩⟩⟩

/-- Extension property of the abstracted top-level body. -/
theorem parseBodyGo_ext {p : SigParseFn} {i r e : List Nat} {pv : Version} {s : Signature}
    (h : parseBodyGo p i pv = .done r s) : parseBodyGo p (i ++ e) pv = .done (r ++ e) s := by
  unfold parseBodyGo at h ⊢
  obtain ⟨i1, ver, h1, h⟩ := pbind_eq_done.mp h
  refine pbind_eq_done.mpr ⟨i1 ++ e, ver, mapOptP_ext (fun hb => be_u8P_ext hb) h1, ?_⟩
  cases ver <;> dsimp only at h ⊢
  · exact v3_body_ext h
  · exact v3_body_ext h
  · exact v4_bodyGo_ext h
  · exact v4_bodyGo_ext h

/-- Extension property of the fuelled entry point at a fixed fuel. -/
theorem parseF_ext {f : Nat} {i r e : List Nat} {pv : Version} {s : Signature}
    (h : parseF f i pv = .done r s) : parseF f (i ++ e) pv = .done (r ++ e) s := by
  cases f with
  | zero => cases h
  | succ g => exact parseBodyGo_ext h

/-- The variable-width length always consumes at least one octet. -/
theorem packet_length_consumes {i r : List Nat} {v : Nat} (h : packet_length i = .done r v) :
    r.length < i.length := by
  match i with
  | [] => cases h
  | b :: t =>
    simp only [packet_length] at h
    by_cases h1 : b < 192
    · rw [if_pos h1] at h
      injection h with ha _
      subst ha
      simp
    · rw [if_neg h1] at h
      by_cases h2 : b < 255
      · rw [if_pos h2] at h
        match t with
        | [] => cases h
        | c :: t2 =>
          injection h with ha _
          subst ha
          simp
          omega
      · rw [if_neg h2] at h
        match t with
        | [] => cases h
        | [a] => cases h
        | [a, b2] => cases h
        | [a, b2, c] => cases h
        | a :: b2 :: c :: d :: t2 =>
          injection h with ha _
          subst ha
          simp
          omega

/-- A `complete`-wrapped parser succeeds exactly when the inner one does. -/
theorem completeP_done {f : List Nat → PResult α} {i r : List Nat} {v : α} :
    completeP f i = .done r v ↔ f i = .done r v := by
  rcases h : f i with ⟨r1, v1⟩ | _ | _ <;> simp [completeP, h]

/-- A `complete`-wrapped parser never reports incomplete input. -/
theorem completeP_ne_incomplete (f : List Nat → PResult α) (i : List Nat) :
    completeP f i ≠ .incomplete := by
  rcases h : f i with ⟨r1, v1⟩ | _ | _ <;> simp [completeP, h]

/-- The complete-wrapped subpacket item parser never reports incomplete
input: inside the already-bounded slice, byte shortage is malformed. -/
theorem itemGo_ne_incomplete (p : SigParseFn) (i : List Nat) :
    itemGo p i ≠ .incomplete :=
  completeP_ne_incomplete _ i

/-- A successful subpacket item strictly consumes input. -/
theorem itemGo_done_lt {p : SigParseFn} {i r : List Nat} {v : Subpacket}
    (h : itemGo p i = .done r v) : r.length < i.length := by
  unfold itemGo at h
  rw [completeP_done] at h
  obtain ⟨i1, len, h1, h⟩ := pbind_eq_done.mp h
  obtain ⟨i2, typ, h2, h⟩ := pbind_eq_done.mp h
  obtain ⟨s, w, h3, _⟩ := mapParserP_done.mp h
  obtain ⟨b, hb, _⟩ := mapOptP_done.mp h2
  have hl1 : i1.length < i.length := packet_length_consumes h1
  have hl2 : i1 = b :: i2 := be_u8P_done hb
  obtain ⟨heq, _, _⟩ := takeP_done h3
  have : r.length ≤ i2.length := by
    rw [heq]
    simp
  subst hl2
  simp at hl1
  omega

/-- The `many0` loop never reports incomplete input (its item parser is
complete-wrapped). -/
theorem many0go_ne_incomplete (p : SigParseFn) : ∀ (k : Nat) (i : List Nat),
    many0go p k i ≠ .incomplete := by
  intro k
  induction k with
  | zero => intro i; simp [many0go]
  | succ k IH =>
    intro i
    unfold many0go
    rcases h : itemGo p i with ⟨i1, v⟩ | _ | _
    · by_cases hg : i1 = i
      · simp [hg]
      · simp [hg]
        rcases h2 : many0go p k i1 with ⟨r, vs⟩ | _ | _ <;> simp
        exact absurd h2 (IH i1)
    · simp
    · exact absurd h (itemGo_ne_incomplete p i)

/-- The subpacket sequence grammar never reports incomplete input. -/
theorem subpacketsGo_ne_incomplete (p : SigParseFn) (i : List Nat) :
    subpacketsGo p i ≠ .incomplete :=
  many0go_ne_incomplete p _ i

/-- Agreement of two entry points on every input shorter than `N`. -/
def AgreeBelow (N : Nat) (p q : SigParseFn) : Prop :=
  ∀ (j : List Nat) (pv : Version), j.length < N → p j pv = q j pv

/-- The grammar table only consults the entry point on the given body. -/
theorem subpacketGo_congr {p q : SigParseFn} {body : List Nat} {typ : SubpacketType}
    (h : ∀ pv, p body pv = q body pv) :
    subpacketGo p typ body = subpacketGo q typ body := by
  cases typ <;> first
    | rfl
    | (simp only [subpacketGo, embedded_sig]; rw [h])

set_option maxRecDepth 6000

/-- Congruence for `pbind` in its continuation, on the reachable value. -/
theorem pbind_congr {x : PResult α} {f g : List Nat → α → PResult β}
    (h : ∀ r v, x = .done r v → f r v = g r v) : x.pbind f = x.pbind g := by
  cases x with
  | done r v => exact h r v rfl
  | error => rfl
  | incomplete => rfl

/-- Congruence for `completeP` in its parser, at the given input. -/
theorem completeP_congr {f g : List Nat → PResult α} {i : List Nat}
    (h : f i = g i) : completeP f i = completeP g i := by
  unfold completeP
  rw [h]

/-- Congruence for `mapParserP` in its inner parser, on reachable slices. -/
theorem mapParserP_second_congr {first : List Nat → PResult (List Nat)}
    {s1 s2 : List Nat → PResult α} {i : List Nat}
    (h : ∀ r s, first i = .done r s → s1 s = s2 s) :
    mapParserP first s1 i = mapParserP first s2 i := by
  unfold mapParserP
  rcases hf : first i with ⟨r, s⟩ | _ | _
  · dsimp only
    rw [h r s hf]
  · rfl
  · rfl

/-- The item parser only consults the entry point on bodies strictly
shorter than its input. -/
theorem itemGo_congr {p q : SigParseFn} {i : List Nat}
    (hAg : ∀ (j : List Nat) (pv : Version), j.length < i.length → p j pv = q j pv) :
    itemGo p i = itemGo q i := by
  unfold itemGo
  apply completeP_congr
  show ((packet_length i).pbind fun j1 len =>
      (mapOptP SubpacketType.from_u8 be_u8P j1).pbind fun j2 typ =>
      mapParserP (takeP (usize_sub len 1)) (fun b => subpacketGo p typ b) j2) =
    ((packet_length i).pbind fun j1 len =>
      (mapOptP SubpacketType.from_u8 be_u8P j1).pbind fun j2 typ =>
      mapParserP (takeP (usize_sub len 1)) (fun b => subpacketGo q typ b) j2)
  apply pbind_congr
  intro i1 len h1
  apply pbind_congr
  intro i2 typ h2
  apply mapParserP_second_congr
  intro r2 slice h3
  have hlt : slice.length < i.length := by
    have hl1 : i1.length < i.length := packet_length_consumes h1
    obtain ⟨b, hb, _⟩ := mapOptP_done.mp h2
    have hl2 : i1 = b :: i2 := be_u8P_done hb
    obtain ⟨heq, _, _⟩ := takeP_done h3
    have : slice.length ≤ i2.length := by
      rw [heq]
      simp
    subst hl2
    simp at hl1
    omega
  exact subpacketGo_congr (fun pv => hAg slice pv hlt)

/-- The `many0` loop preserves agreement of entry points below a bound that
dominates its input. -/
theorem many0go_congr {N : Nat} {p q : SigParseFn} (hAg : AgreeBelow N p q) :
    ∀ (k : Nat) (i : List Nat), i.length ≤ N → many0go p k i = many0go q k i := by
  intro k
  induction k with
  | zero => intro i _; rfl
  | succ k IH =>
    intro i hN
    unfold many0go
    have hitem : itemGo p i = itemGo q i :=
      itemGo_congr (fun j pv hj => hAg j pv (lt_of_lt_of_le hj hN))
    rw [hitem]
    rcases h : itemGo q i with ⟨i1, v⟩ | _ | _ <;> dsimp only <;> try rfl
    have hlt : i1.length < i.length := itemGo_done_lt h
    have hg : ¬ i1 = i := by
      intro he
      rw [he] at hlt
      exact lt_irrefl _ hlt
    simp only [if_neg hg, IH i1 (le_of_lt (lt_of_lt_of_le hlt hN))]

/-- The subpacket sequence grammar preserves agreement below a bound that
dominates its input. -/
theorem subpacketsGo_congr {N : Nat} {p q : SigParseFn} {i : List Nat}
    (hAg : AgreeBelow N p q) (hN : i.length ≤ N) :
    subpacketsGo p i = subpacketsGo q i :=
  many0go_congr hAg _ i hN

/-- Within a `take`-bounded slice, the subpacket sequence only depends on
the entry point's behavior below any bound dominating the outer input. -/
theorem mapParserP_subpackets_congr {N : Nat} {p q : SigParseFn} (hAg : AgreeBelow N p q)
    {n : Nat} {j : List Nat} (hj : j.length ≤ N) :
    mapParserP (takeP n) (subpacketsGo p) j = mapParserP (takeP n) (subpacketsGo q) j := by
  apply mapParserP_second_congr
  intro r s ht
  obtain ⟨hjeq, _, _⟩ := takeP_done ht
  have hs : s.length ≤ N := by
    rw [hjeq] at hj
    simp at hj
    omega
  exact subpacketsGo_congr hAg hs

/-- The remaining input of a successful `take` is no longer than its input. -/
theorem takeP_rest_le {n : Nat} {j r s : List Nat} (h : takeP n j = .done r s) :
    r.length ≤ j.length := by
  obtain ⟨hjeq, _, _⟩ := takeP_done h
  rw [hjeq]
  simp

/-- The modern body grammar preserves agreement below a bound that
dominates its input: its subpacket slices are strictly shorter. -/
theorem v4_bodyGo_congr {N : Nat} {p q : SigParseFn} {i : List Nat} {pv : Version}
    {ver : SignatureVersion} (hAg : AgreeBelow N p q) (hN : i.length ≤ N) :
    v4_bodyGo p i pv ver = v4_bodyGo q i pv ver := by
  unfold v4_bodyGo
  apply pbind_congr
  intro i1 typ h1
  apply pbind_congr
  intro i2 pa h2
  apply pbind_congr
  intro i3 ha h3
  apply pbind_congr
  intro i4 hlen h4
  have hle4 : i4.length ≤ N := by
    obtain ⟨b1, hb1, _⟩ := mapOptP_done.mp h1
    obtain ⟨b2, hb2, _⟩ := mapOptP_done.mp h2
    obtain ⟨b3, hb3, _⟩ := mapOptP_done.mp h3
    have e1 := be_u8P_done hb1
    have e2 := be_u8P_done hb2
    have e3 := be_u8P_done hb3
    obtain ⟨a4, b4, e4, _⟩ := be_u16P_done h4
    subst e1
    subst e2
    subst e3
    rw [e4] at hN
    simp at hN
    omega
  rw [mapParserP_subpackets_congr hAg hle4]
  apply pbind_congr
  intro i5 hsub h5
  have hle5 : i5.length ≤ N := by
    obtain ⟨s, w, hta, _⟩ := mapParserP_done.mp h5
    exact le_trans (takeP_rest_le hta) hle4
  apply pbind_congr
  intro i6 ulen h6
  have hle6 : i6.length ≤ N := by
    obtain ⟨a6, b6, e6, _⟩ := be_u16P_done h6
    rw [e6] at hle5
    simp at hle5
    omega
  rw [mapParserP_subpackets_congr hAg hle6]

/-- The abstracted top-level body preserves agreement below a bound that
dominates its input. -/
theorem parseBodyGo_congr {N : Nat} {p q : SigParseFn} {i : List Nat} {pv : Version}
    (hAg : AgreeBelow N p q) (hN : i.length ≤ N) :
    parseBodyGo p i pv = parseBodyGo q i pv := by
  unfold parseBodyGo
  apply pbind_congr
  intro i1 ver h1
  have hle1 : i1.length ≤ N := by
    obtain ⟨b1, hb1, _⟩ := mapOptP_done.mp h1
    have e1 := be_u8P_done hb1
    subst e1
    simp at hN
    omega
  cases ver
  · rfl
  · rfl
  · exact v4_bodyGo_congr hAg hle1
  · exact v4_bodyGo_congr hAg hle1

/-- Fuel irrelevance of the fuelled entry point: any two fuels strictly
above the input length give the same outcome (the recursion strictly
shrinks its input, so such fuel can never run out). -/
theorem parseF_fuel_irrelevant : ∀ (N : Nat) (i : List Nat) (f g : Nat) (pv : Version),
    i.length ≤ N → i.length < f → i.length < g → parseF f i pv = parseF g i pv := by
  intro N
  induction N with
  | zero =>
    intro i f g pv hN hf hg
    obtain ⟨f1, rfl⟩ : ∃ f1, f = f1 + 1 := ⟨f - 1, by omega⟩
    obtain ⟨g1, rfl⟩ : ∃ g1, g = g1 + 1 := ⟨g - 1, by omega⟩
    exact parseBodyGo_congr (fun j pv hj => False.elim (by omega)) (le_refl i.length)
  | succ N IH =>
    intro i f g pv hN hf hg
    obtain ⟨f1, rfl⟩ : ∃ f1, f = f1 + 1 := ⟨f - 1, by omega⟩
    obtain ⟨g1, rfl⟩ : ∃ g1, g = g1 + 1 := ⟨g - 1, by omega⟩
    exact parseBodyGo_congr
      (fun j pv hj => IH j f1 g1 pv (by omega) (by omega) (by omega))
      (le_refl i.length)

/-- C1: for every input and already-parsed public-key algorithm, the
algorithm-keyed signature value decoder returns exactly 1 MPI for RSA and
RSASign, exactly 2 for DSA, ECDSA and EdDSA (it cannot succeed with
fewer), and exactly 1 for every other algorithm code, including the
private/experimental range. -/
theorem actual_signature_mpi_count (input : List Nat) (typ : PublicKeyAlgorithm)
    (r : List Nat) (v : List (List Nat)) (h : actual_signature input typ = .done r v) :
    v.length = if typ = .DSA ∨ typ = .ECDSA ∨ typ = .EdDSA then 2 else 1 := by
  cases typ <;> simp only [actual_signature] at h <;>
    try (obtain ⟨w, hw, rfl⟩ := pmap_eq_done.mp h; simp)
  all_goals {
    rcases h1 : mpi input with ⟨r1, a⟩ | _ | _ <;> rw [h1] at h <;> dsimp only at h <;>
      try cases h
    by_cases hg1 : r1 = input
    · rw [if_pos hg1] at h
      cases h
    · rw [if_neg hg1] at h
      rcases h2 : mpi r1 with ⟨r2, b⟩ | _ | _ <;> rw [h2] at h <;> dsimp only at h <;>
        try cases h
      by_cases hg2 : r2 = r1
      · rw [if_pos hg2] at h
        cases h
      · rw [if_neg hg2] at h
        injection h with ha hb
        subst hb
        simp
  }

/-- Witness for C1: a concrete RSA input decodes to a one-element sequence
and a concrete DSA input to a two-element sequence. -/
theorem actual_signature_mpi_count_witness :
    actual_signature [0, 0] PublicKeyAlgorithm.RSA = .done [] [[]] ∧
    ([[]] : List (List Nat)).length =
      (if PublicKeyAlgorithm.RSA = .DSA ∨ PublicKeyAlgorithm.RSA = .ECDSA ∨
          PublicKeyAlgorithm.RSA = .EdDSA then 2 else 1) ∧
    actual_signature [0, 1, 1, 0, 2, 3] PublicKeyAlgorithm.DSA = .done [] [[1], [3]] ∧
    ([[1], [3]] : List (List Nat)).length =
      (if PublicKeyAlgorithm.DSA = .DSA ∨ PublicKeyAlgorithm.DSA = .ECDSA ∨
          PublicKeyAlgorithm.DSA = .EdDSA then 2 else 1) :=
  ⟨rfl, actual_signature_mpi_count [0, 0] .RSA [] [[]] rfl,
   rfl, actual_signature_mpi_count [0, 1, 1, 0, 2, 3] .DSA [] [[1], [3]] rfl⟩

/-- C3: a type-tag byte in either reserved catch-all range (experimental
100..110, or any other unknown code) maps to a catch-all kind, and the
grammar table then succeeds unconditionally for every body, retaining the
raw numeric tag and the raw body bytes verbatim. -/
theorem subpacket_catch_all (p : SigParseFn) (code : Nat) (body : List Nat) :
    (100 ≤ code ∧ code ≤ 110 →
      SubpacketType.from_u8 code = some (.Experimental code) ∧
      subpacketGo p (.Experimental code) body = .done body (.Experimental code body))
  ∧ (code ∉ ([2, 3, 4, 5, 6, 7, 9, 11, 12, 16, 20, 21, 22, 23, 24, 25, 26, 27,
        28, 29, 30, 31, 32, 33, 34] : List Nat) → ¬(100 ≤ code ∧ code ≤ 110) →
      SubpacketType.from_u8 code = some (.Other code) ∧
      subpacketGo p (.Other code) body = .done body (.Other code body)) := by
  constructor
  · rintro ⟨hlo, hhi⟩
    interval_cases code <;> exact ⟨rfl, rfl⟩
  · intro hmem hrange
    refine ⟨?_, rfl⟩
    unfold SubpacketType.from_u8
    split <;> first
      | (rw [if_neg hrange])
      | (exfalso; simp at hmem)

/-- Witness for C3: code 105 is experimental, code 254 is "other"; both
succeed on a concrete body. -/
theorem subpacket_catch_all_witness :
    SubpacketType.from_u8 105 = some (.Experimental 105) ∧
    subpacketGo (fun _ _ => .error) (.Experimental 105) [9, 9] =
      .done [9, 9] (.Experimental 105 [9, 9]) ∧
    SubpacketType.from_u8 254 = some (.Other 254) ∧
    subpacketGo (fun _ _ => .error) (.Other 254) [9, 9] =
      .done [9, 9] (.Other 254 [9, 9]) :=
  ⟨((subpacket_catch_all (fun _ _ => .error) 105 [9, 9]).1 (by omega)).1,
   ((subpacket_catch_all (fun _ _ => .error) 105 [9, 9]).1 (by omega)).2,
   ((subpacket_catch_all (fun _ _ => .error) 254 [9, 9]).2 (by decide) (by omega)).1,
   ((subpacket_catch_all (fun _ _ => .error) 254 [9, 9]).2 (by decide) (by omega)).2⟩

/-- C4: the embedded-signature grammar hands its entire body to the
top-level entry point tagged with the new packet-format version,
whatever entry point is in effect and whatever the outer packet's
version was, and retains the resulting signature inside the variant; a
concrete doubly-nested signature (outer packet old-format) parses with no
depth limit interfering, the nested signatures carrying the new format
version. -/
theorem embedded_signature_recursion :
    (∀ (p : SigParseFn) (body : List Nat),
      subpacketGo p SubpacketType.EmbeddedSignature body =
        (p body Version.New).pmap (fun s => Subpacket.EmbeddedSignature s))
  ∧ parse [4, 0, 1, 8, 0, 28, 27, 32, 4, 0, 1, 8, 0, 14, 13, 32,
      4, 0, 1, 8, 0, 0, 0, 0, 0xAA, 0xBB, 0, 0,
      0, 0, 0xAA, 0xBB, 0, 0, 0, 0, 0xAA, 0xBB, 0, 0] Version.Old
    = .done [] (.mk .Old .V4 .Binary .RSA .SHA256 [0xAA, 0xBB] [[]]
        [.EmbeddedSignature (.mk .New .V4 .Binary .RSA .SHA256 [0xAA, 0xBB] [[]]
          [.EmbeddedSignature
            (.mk .New .V4 .Binary .RSA .SHA256 [0xAA, 0xBB] [[]] [] [] none none)]
          [] none none)] [] none none) :=
  ⟨fun _ _ => rfl, rfl⟩

/-- C6: once a length-bounded slice has been materialized, running out of
bytes inside it is malformed, never incomplete: the complete-wrapped item
parser and the subpacket sequence parser never return the incomplete
outcome, a concretely truncated subpacket body yields a malformed error,
while the outer, not-yet-bounded stream ending early does yield the
incomplete outcome. -/
theorem bounded_slice_exhaustion (p : SigParseFn) :
    (∀ i, itemGo p i ≠ .incomplete)
  ∧ (∀ i, subpacketsGo p i ≠ .incomplete)
  ∧ itemGo p [2, 2, 0] = .error
  ∧ parse [4, 0, 1, 8, 0, 5] Version.New = .incomplete :=
  ⟨itemGo_ne_incomplete p, subpacketsGo_ne_incomplete p, rfl, rfl⟩

/-- C7: the four text-valued subpacket kinds each consume the whole body as
text; invalid UTF-8 is fatal exactly for preferred key server and
signer's user id, while regular expression and policy URI succeed on any
bytes (none of the four retains raw bytes on decode failure). -/
theorem text_subpacket_kinds (body : List Nat) :
    (isValidUtf8 body = false →
      preferred_key_server body = .error ∧
      signers_userid body = .error ∧
      regular_expression body = .done [] (.RegularExpression (read_string body)) ∧
      policy_uri body = .done [] (.PolicyURI (read_string body)))
  ∧ (isValidUtf8 body = true →
      preferred_key_server body = .done [] (.PreferredKeyServer body) ∧
      signers_userid body = .done [] (.SignersUserID body)) := by
  constructor
  · intro h
    refine ⟨?_, ?_, rfl, rfl⟩ <;>
      simp [preferred_key_server, signers_userid, restP, from_utf8, h]
  · intro h
    constructor <;>
      simp [preferred_key_server, signers_userid, restP, from_utf8, h]

/-- Witness for C7: the invalid byte 0xFF makes the two strict kinds fail,
and a valid ASCII byte parses. -/
theorem text_subpacket_kinds_witness :
    isValidUtf8 [0xFF] = false ∧ preferred_key_server [0xFF] = .error ∧
    regular_expression [0xFF] = .done [] (.RegularExpression (read_string [0xFF])) ∧
    isValidUtf8 [0x61] = true ∧
    preferred_key_server [0x61] = .done [] (.PreferredKeyServer [0x61]) :=
  ⟨rfl, ((text_subpacket_kinds [0xFF]).1 rfl).1,
   (((text_subpacket_kinds [0xFF]).1 rfl).2).2.1,
   rfl, ((text_subpacket_kinds [0x61]).2 rfl).1⟩

/-- A `take` of exactly the leading block's length splits an append. -/
theorem takeP_exact (l r : List Nat) : takeP l.length (l ++ r) = .done r l := by
  unfold takeP
  rw [if_pos (by simp), List.take_left, List.drop_left]

/-- C2 counterexample: a notation-data body whose flag byte is 0x81 (top
bit set, low bit set) parses successfully but with `readable = false`,
because the source compares the whole flag byte with 0x80 instead of
testing the top bit. -/
theorem notation_data_readable_cex :
    notation_data [0x81, 0, 0, 0, 0, 0, 0, 0] =
      .done [] (.NotationData false [] []) := rfl

/-- C2 amended: the notation-data grammar reads 1 flag byte whose value
must equal 0x80 exactly for `readable` to be true (e.g. 0x81 gives
`readable = false`), then 3 reserved bytes that must be exactly zero
(else the subpacket fails), a 2-byte name length, a 2-byte value length,
then name and value bytes each decoded as text. -/
theorem notation_data_amended :
    (∀ (flag a b c d : Nat) (name value rest : List Nat),
      name.length = a * 256 + b → value.length = c * 256 + d →
      notation_data (flag :: 0 :: 0 :: 0 :: a :: b :: c :: d ::
          (name ++ (value ++ rest)))
        = .done rest (.NotationData (flag == 0x80) (read_string name)
            (read_string value)))
  ∧ (∀ (flag r1 r2 r3 : Nat) (rest : List Nat), ¬(r1 = 0 ∧ r2 = 0 ∧ r3 = 0) →
      notation_data (flag :: r1 :: r2 :: r3 :: rest) = .error) := by
  constructor
  · intro flag a b c d name value rest hn hv
    unfold notation_data
    refine pbind_eq_done.mpr ⟨_, flag, rfl, ?_⟩
    refine pbind_eq_done.mpr ⟨_, (), rfl, ?_⟩
    refine pbind_eq_done.mpr ⟨_, a * 256 + b, rfl, ?_⟩
    refine pbind_eq_done.mpr ⟨_, c * 256 + d, rfl, ?_⟩
    refine pbind_eq_done.mpr ⟨value ++ rest, name, ?_, ?_⟩
    · rw [← hn]
      exact takeP_exact name (value ++ rest)
    · refine pmap_eq_done.mpr ⟨value, ?_, rfl⟩
      rw [← hv]
      exact takeP_exact value rest
  · intro flag r1 r2 r3 rest hne
    have htag : tagP [0, 0, 0] (r1 :: r2 :: r3 :: rest) = .error := by
      unfold tagP
      have h1 : List.take ([0, 0, 0] : List Nat).length (r1 :: r2 :: r3 :: rest)
          = [r1, r2, r3] := rfl
      rw [h1]
      have hne2 : ¬ ([r1, r2, r3] = ([0, 0, 0] : List Nat)) := by
        simp only [List.cons.injEq, and_true]
        tauto
      rw [if_neg hne2]
      have hlen : (r1 :: r2 :: r3 :: rest).length = rest.length + 3 := by simp
      have ht2 : (([0, 0, 0] : List Nat)).take (rest.length + 3) = [0, 0, 0] := by
        rw [List.take_of_length_le]
        simp
      rw [hlen, ht2]
      rw [if_neg]
      intro he
      injection he with e1 he2
      injection he2 with e2 he3
      injection he3 with e3 he4
      exact hne ⟨e1.symm, e2.symm, e3.symm⟩
    unfold notation_data
    simp only [be_u8P, PResult.pbind]
    rw [htag]

/-- Witness for C2 amended: a concrete well-formed body with flag 0x80 and
with flag 0x81, and a concrete nonzero reserved byte failing. -/
theorem notation_data_amended_witness :
    notation_data [0x80, 0, 0, 0, 0, 1, 0, 0, 0x61] =
      .done [] (.NotationData true (read_string [0x61]) (read_string [])) ∧
    notation_data [0x81, 0, 0, 0, 0, 1, 0, 0, 0x61] =
      .done [] (.NotationData false (read_string [0x61]) (read_string [])) ∧
    notation_data [0x80, 1, 0, 0, 9, 9] = .error := by
  refine ⟨?_, ?_, ?_⟩
  · exact notation_data_amended.1 0x80 0 1 0 0 [0x61] [] [] rfl rfl
  · exact notation_data_amended.1 0x81 0 1 0 0 [0x61] [] [] rfl rfl
  · exact notation_data_amended.2 0x80 1 0 0 [9, 9] (by simp)

/-- C8: a V4/V5 body whose hashed-subpacket-area length field is 0 (and
likewise unhashed) parses to empty subpacket sequences, not an error,
provided the surrounding fixed fields are valid. -/
theorem v4_empty_subpacket_areas (p : SigParseFn) (pv : Version) (ver : SignatureVersion)
    (t pa ha l1 l2 : Nat) (sb : List Nat) (st : SignatureType)
    (paA : PublicKeyAlgorithm) (haA : HashAlgorithm) (r : List Nat)
    (mpis : List (List Nat))
    (h1 : SignatureType.from_u8 t = some st)
    (h2 : PublicKeyAlgorithm.from_u8 pa = some paA)
    (h3 : HashAlgorithm.from_u8 ha = some haA)
    (h4 : actual_signature sb paA = .done r mpis) :
    v4_bodyGo p (t :: pa :: ha :: 0 :: 0 :: 0 :: 0 :: l1 :: l2 :: sb) pv ver =
      .done r (Signature.new pv ver st paA haA [l1, l2] mpis [] []) := by
  unfold v4_bodyGo
  refine pbind_eq_done.mpr ⟨_, st, mapOptP_done.mpr ⟨t, rfl, h1⟩, ?_⟩
  refine pbind_eq_done.mpr ⟨_, paA, mapOptP_done.mpr ⟨pa, rfl, h2⟩, ?_⟩
  refine pbind_eq_done.mpr ⟨_, haA, mapOptP_done.mpr ⟨ha, rfl, h3⟩, ?_⟩
  refine pbind_eq_done.mpr ⟨_, 0, rfl, ?_⟩
  refine pbind_eq_done.mpr ⟨_, [], rfl, ?_⟩
  refine pbind_eq_done.mpr ⟨_, 0, rfl, ?_⟩
  refine pbind_eq_done.mpr ⟨_, [], rfl, ?_⟩
  refine pbind_eq_done.mpr ⟨sb, [l1, l2], takeP_exact [l1, l2] sb, ?_⟩
  exact pmap_eq_done.mpr ⟨mpis, h4, rfl⟩

/-- Witness for C8: a concrete V4 body with both area lengths 0. -/
theorem v4_empty_subpacket_areas_witness :
    SignatureType.from_u8 0 = some .Binary ∧
    PublicKeyAlgorithm.from_u8 1 = some .RSA ∧
    HashAlgorithm.from_u8 8 = some .SHA256 ∧
    actual_signature [0, 0] .RSA = .done [] [[]] ∧
    v4_bodyGo (fun _ _ => .error)
      (0 :: 1 :: 8 :: 0 :: 0 :: 0 :: 0 :: 0xAA :: 0xBB :: [0, 0]) .New .V4 =
      .done [] (Signature.new .New .V4 .Binary .RSA .SHA256 [0xAA, 0xBB] [[]] [] []) :=
  ⟨rfl, rfl, rfl, rfl,
   v4_empty_subpacket_areas (fun _ _ => .error) .New .V4 0 1 8 0xAA 0xBB [0, 0]
     .Binary .RSA .SHA256 [] [[]] rfl rfl rfl rfl⟩

/-- The subpacket type-tag lookup is total: every code maps to some kind
(known, experimental, or other). -/
theorem subpacketTypeFromU8_total (n : Nat) : ∃ t, SubpacketType.from_u8 n = some t := by
  unfold SubpacketType.from_u8
  split
  all_goals try exact ⟨_, rfl⟩
  split_ifs <;> exact ⟨_, rfl⟩

/-- A parser mapped to incomplete input is turned into an error by the
`complete` wrapper. -/
theorem completeP_of_incomplete {f : List Nat → PResult α} {i : List Nat}
    (h : f i = .incomplete) : completeP f i = .error := by
  unfold completeP
  rw [h]

/-- C9 counterexample: a subpacket length field can decode to 0 (input
bytes 0x00 0x02), and the body-length computation `len - 1` then
underflows: the wrapping `usize` subtraction yields 2^64 - 1, which is
not the mathematical value of 0 - 1; the sequence parser still stops
cleanly rather than aborting. -/
theorem subpackets_len0_cex :
    packet_length [0, 2] = .done [2] 0 ∧
    usize_sub 0 1 = 2 ^ 64 - 1 ∧
    ((usize_sub 0 1 : Nat) : Int) ≠ (0 : Int) - 1 ∧
    subpacketsGo (fun _ _ => .error) [0, 2] = .done [0, 2] [] := by
  have hu : usize_sub 0 1 = 2 ^ 64 - 1 := by
    norm_num [usize_sub, USIZE]
  refine ⟨rfl, hu, ?_, rfl⟩
  rw [hu]
  intro hc
  norm_num at hc

/-- C9 amended: the subpacket sequence parser is total in the sense that it
returns a list or a structured error (never the incomplete outcome and,
in the wrapping release-mode semantics, no abort); when the decoded
length field is 0 the underflowed `take` amount makes the item fail,
which ends the `many0` loop cleanly with an empty list and the input
unconsumed. -/
theorem subpackets_len0_amended (p : SigParseFn) (rest : List Nat)
    (h : rest.length < 2 ^ 64 - 1) :
    (∀ i, subpacketsGo p i ≠ .incomplete) ∧
    itemGo p (0 :: rest) = .error ∧
    subpacketsGo p (0 :: rest) = .done (0 :: rest) [] := by
  have hitem : itemGo p (0 :: rest) = .error := by
    unfold itemGo
    apply completeP_of_incomplete
    show ((packet_length (0 :: rest)).pbind fun j1 len =>
      (mapOptP SubpacketType.from_u8 be_u8P j1).pbind fun j2 typ =>
      mapParserP (takeP (usize_sub len 1)) (fun b => subpacketGo p typ b) j2) = .incomplete
    rw [show packet_length (0 :: rest) = .done rest 0 from rfl]
    dsimp only [PResult.pbind]
    match rest with
    | [] => rfl
    | t :: rest2 =>
      obtain ⟨typ, htyp⟩ := subpacketTypeFromU8_total t
      rw [show mapOptP SubpacketType.from_u8 be_u8P (t :: rest2) = .done rest2 typ by
        simp [mapOptP, be_u8P, htyp]]
      dsimp only [PResult.pbind]
      have htake : takeP (usize_sub 0 1) rest2 = .incomplete := by
        unfold takeP
        rw [if_neg]
        have hu : usize_sub 0 1 = 2 ^ 64 - 1 := by
          norm_num [usize_sub, USIZE]
        rw [hu]
        simp at h
        omega
      simp [mapParserP, htake]
  refine ⟨subpacketsGo_ne_incomplete p, hitem, ?_⟩
  show many0go p ((0 :: rest).length + 1) (0 :: rest) = .done (0 :: rest) []
  rw [show (0 :: rest).length + 1 = rest.length + 2 by simp]
  unfold many0go
  rw [hitem]

/-- Witness for C9 amended: the concrete input 0x00 0x02. -/
theorem subpackets_len0_amended_witness :
    ([2] : List Nat).length < 2 ^ 64 - 1 ∧
    itemGo (fun _ _ => .error) (0 :: [2]) = .error ∧
    subpacketsGo (fun _ _ => .error) (0 :: [2]) = .done (0 :: [2]) [] :=
  ⟨by norm_num,
   (subpackets_len0_amended (fun _ _ => .error) [2] (by norm_num)).2.1,
   (subpackets_len0_amended (fun _ _ => .error) [2] (by norm_num)).2.2⟩

/-- C5: every input the legacy V2/V3 body grammar accepts starts with the
literal 5, continues with a validated signature-type byte, a 4-byte
creation timestamp, an 8-byte issuer key id, validated public-key and
hash algorithm bytes, a 2-byte truncated hash and the algorithm-keyed
value; the resulting signature has its creation-time and issuer
convenience fields populated from those fixed fields and both subpacket
sequences empty. -/
theorem v3_body_inversion (input : List Nat) (pv : Version) (ver : SignatureVersion)
    (r : List Nat) (s : Signature) (h : v3_body input pv ver = .done r s) :
    ∃ (t c1 c2 c3 c4 pa ha b1 b2 : Nat) (kid tail : List Nat)
      (st : SignatureType) (paA : PublicKeyAlgorithm) (haA : HashAlgorithm)
      (mpis : List (List Nat)),
      input = 5 :: t :: c1 :: c2 :: c3 :: c4 ::
        (kid ++ (pa :: ha :: b1 :: b2 :: tail)) ∧
      kid.length = 8 ∧
      SignatureType.from_u8 t = some st ∧
      PublicKeyAlgorithm.from_u8 pa = some paA ∧
      HashAlgorithm.from_u8 ha = some haA ∧
      actual_signature tail paA = .done r mpis ∧
      s = ((Signature.new pv ver st paA haA [b1, b2] mpis [] []).withCreated
            (((c1 * 256 + c2) * 256 + c3) * 256 + c4)).withIssuer kid ∧
      s.created = some (((c1 * 256 + c2) * 256 + c3) * 256 + c4) ∧
      s.issuer = some kid ∧
      s.hashedSubpackets = [] ∧
      s.unhashedSubpackets = [] := by
  unfold v3_body at h
  obtain ⟨i1, u, ht, h⟩ := pbind_eq_done.mp h
  obtain ⟨i2, st, hst, h⟩ := pbind_eq_done.mp h
  obtain ⟨i3, created, hcr, h⟩ := pbind_eq_done.mp h
  obtain ⟨i4, kid, hkid, h⟩ := pbind_eq_done.mp h
  obtain ⟨i5, paA, hpa, h⟩ := pbind_eq_done.mp h
  obtain ⟨i6, haA, hha, h⟩ := pbind_eq_done.mp h
  obtain ⟨i7, lsh, hlsh, h⟩ := pbind_eq_done.mp h
  obtain ⟨mpis, hsig, hs⟩ := pmap_eq_done.mp h
  have hi : input = [5] ++ i1 := tagP_done ht
  obtain ⟨t, htb, htv⟩ := mapOptP_done.mp hst
  have hi1 : i1 = t :: i2 := be_u8P_done htb
  obtain ⟨c1, c2, c3, c4, hi2, hcv⟩ := be_u32P_done hcr
  obtain ⟨kidw, hkid8, hkidv⟩ := mapOptP_done.mp hkid
  obtain ⟨hi3, hkl, _⟩ := takeP_done hkid8
  have hkk : kid = kidw := by
    unfold KeyId.from_slice at hkidv
    rw [if_pos hkl] at hkidv
    injection hkidv with hk
    rw [hk]
  obtain ⟨pa, hpab, hpav⟩ := mapOptP_done.mp hpa
  have hi4 : i4 = pa :: i5 := be_u8P_done hpab
  obtain ⟨ha, hhab, hhav⟩ := mapOptP_done.mp hha
  have hi5 : i5 = ha :: i6 := be_u8P_done hhab
  obtain ⟨hi6, hll, _⟩ := takeP_done hlsh
  obtain ⟨b1, b2, hlshe⟩ := List.length_eq_two.mp hll
  refine ⟨t, c1, c2, c3, c4, pa, ha, b1, b2, kidw, i7, st, paA, haA, mpis,
    ?_, hkl, htv, hpav, hhav, ?_, ?_, ?_, ?_, ?_, ?_⟩
  · rw [hi, hi1, hi2, hi3, hi4, hi5, hi6, hlshe]
    simp
  · exact hsig
  · rw [← hs, hkk, hcv, hlshe]
  · rw [← hs, hcv]
    rfl
  · rw [← hs, hkk]
    rfl
  · rw [← hs]
    rfl
  · rw [← hs]
    rfl

/-- Witness for C5: a concrete legacy V3 body. -/
theorem v3_body_inversion_witness :
    v3_body [5, 0, 0, 0, 0, 9, 1, 2, 3, 4, 5, 6, 7, 8, 1, 8, 0xCC, 0xDD, 0, 8, 0x7F]
        .New .V3 =
      .done [] (((Signature.new .New .V3 .Binary .RSA .SHA256 [0xCC, 0xDD] [[0x7F]]
        [] []).withCreated 9).withIssuer [1, 2, 3, 4, 5, 6, 7, 8]) ∧
    (((Signature.new .New .V3 .Binary .RSA .SHA256 [0xCC, 0xDD] [[0x7F]]
        [] []).withCreated 9).withIssuer [1, 2, 3, 4, 5, 6, 7, 8]).hashedSubpackets = [] := by
  constructor
  · rfl
  · obtain ⟨t, c1, c2, c3, c4, pa, ha, b1, b2, kid, tail, st, paA, haA, mpis,
      _, _, _, _, _, _, _, _, _, hempty, _⟩ :=
      v3_body_inversion [5, 0, 0, 0, 0, 9, 1, 2, 3, 4, 5, 6, 7, 8, 1, 8, 0xCC, 0xDD, 0, 8, 0x7F]
        .New .V3 []
        (((Signature.new .New .V3 .Binary .RSA .SHA256 [0xCC, 0xDD] [[0x7F]]
          [] []).withCreated 9).withIssuer [1, 2, 3, 4, 5, 6, 7, 8]) rfl
    exact hempty

/-- C10: if some front part of a slice parses as a Signature packet body,
then parsing the whole slice succeeds with the same signature and only a
longer unconsumed remainder, and `Signature::from_slice` returns that
signature, silently discarding the trailing bytes. -/
theorem from_slice_discards_trailing (p e : List Nat) (pv : Version) (r : List Nat)
    (s : Signature) (h : parse p pv = .done r s) :
    parse (p ++ e) pv = .done (r ++ e) s ∧
    Signature.from_slice pv (p ++ e) = some s := by
  have h1 : parseF (p.length + 1) p pv = .done r s := h
  have heq := parseF_fuel_irrelevant p.length p (p.length + 1) ((p ++ e).length + 1) pv
    (le_refl _) (by omega) (by rw [List.length_append]; omega)
  have h2 : parseF ((p ++ e).length + 1) p pv = .done r s := by
    rw [← heq]
    exact h1
  have h3 : parseF ((p ++ e).length + 1) (p ++ e) pv = .done (r ++ e) s := parseF_ext h2
  have h4 : parse (p ++ e) pv = .done (r ++ e) s := h3
  refine ⟨h4, ?_⟩
  unfold Signature.from_slice
  rw [h4]

/-- Witness for C10: a minimal V4 signature body followed by two junk
bytes still parses to the same signature. -/
theorem from_slice_discards_trailing_witness :
    parse [4, 0, 1, 8, 0, 0, 0, 0, 0xAA, 0xBB, 0, 0] Version.New =
      .done [] (.mk .New .V4 .Binary .RSA .SHA256 [0xAA, 0xBB] [[]] [] [] none none) ∧
    parse ([4, 0, 1, 8, 0, 0, 0, 0, 0xAA, 0xBB, 0, 0] ++ [9, 9]) Version.New =
      .done ([] ++ [9, 9])
        (.mk .New .V4 .Binary .RSA .SHA256 [0xAA, 0xBB] [[]] [] [] none none) ∧
    Signature.from_slice Version.New ([4, 0, 1, 8, 0, 0, 0, 0, 0xAA, 0xBB, 0, 0] ++ [9, 9]) =
      some (.mk .New .V4 .Binary .RSA .SHA256 [0xAA, 0xBB] [[]] [] [] none none) :=
  ⟨rfl,
   (from_slice_discards_trailing [4, 0, 1, 8, 0, 0, 0, 0, 0xAA, 0xBB, 0, 0] [9, 9]
     Version.New [] (.mk .New .V4 .Binary .RSA .SHA256 [0xAA, 0xBB] [[]] [] [] none none)
     rfl).1,
   (from_slice_discards_trailing [4, 0, 1, 8, 0, 0, 0, 0, 0xAA, 0xBB, 0, 0] [9, 9]
     Version.New [] (.mk .New .V4 .Binary .RSA .SHA256 [0xAA, 0xBB] [[]] [] [] none none)
     rfl).2⟩
